/-
Verification of the sorna-agent core against its specification.

This file gives a shallow embedding, in Lean 4, of the parts of the agent that
the checked claims are about:

* the runner I/O protocol of src/ai/backend/agent/kernel.py
  (feed_batch, watchdog, read_output, aggregate_console, the multiplexed
  per-run output queues of get_next_result, and match_krunner_volume), and
* the lifecycle / resource bookkeeping of src/ai/backend/agent/agent.py
  (collect_logs, the CLEAN handler's port restoration, the termination-reason
  handling of inject_container_lifecycle_event and the DESTROY handler, and
  the device-allocation stage of create_kernel).

Conventions of the embedding:
* Byte strings are `List Nat`; text strings are Lean `String` or `List Char`.
* Python `None` becomes `Option.none`.
* Mutation becomes explicit state passing; an `asyncio.Queue` becomes the list
  of its current items together with its capacity checks.
* Fallible code returns `Except` / `Option`.
-/
import Mathlib

namespace SornaAgent

/-- kernel.py `ResultRecord`: a message-type tag and an optional payload
(the payload is `None` for the synthetic exec-timeout record). -/
structure ResultRecord where
  msg_type : String
  data : Option String
deriving DecidableEq, Repr

/-- kernel.py `outgoing_msg_types`: the msg types visible to the API client. -/
def outgoing_msg_types : List String :=
  ["stdout", "stderr", "media", "html", "log", "completion"]

/-! ## feed_batch (kernel.py lines 114-135) -/

/-- Key lookup in a Python dict modelled as an association list with unique
keys: the value of the first binding of `key`, if any. -/
def lookupKey {β : Type} : List (String × β) → String → Option β
  | [], _ => none
  | (k, v) :: rest, key => if k = key then some v else lookupKey rest key

/-- Python `opts.get(key, default)` over a dict modelled as an association
list whose stored values may themselves be `None`. -/
def dictGetD (opts : List (String × Option String)) (key : String)
    (dflt : Option String) : Option String :=
  match lookupKey opts key with
  | some v => v
  | none => dflt

/-- Embedding of `AbstractKernelRunner.feed_batch`: returns, in order, the
(tag, payload) frames sent over the input socket.  Each command is fetched
with `opts.get(tag, '')`, replaced by `''` when the stored value is `None`,
and sent as one two-frame message. -/
def feed_batch (opts : List (String × Option String)) : List (String × String) :=
  let clean_cmd0 := dictGetD opts "clean" (some "")
  let clean_cmd := match clean_cmd0 with | none => "" | some s => s
  let sent1 := [("clean", clean_cmd)]
  let build_cmd0 := dictGetD opts "build" (some "")
  let build_cmd := match build_cmd0 with | none => "" | some s => s
  let sent2 := sent1 ++ [("build", build_cmd)]
  let exec_cmd0 := dictGetD opts "exec" (some "")
  let exec_cmd := match exec_cmd0 with | none => "" | some s => s
  sent2 ++ [("exec", exec_cmd)]

/-- Specification-side payload rule for C10, in the claim's words: the payload
for a tag is the opts entry, and when the entry is absent or `None` it is the
empty string. -/
def claimedPayload (opts : List (String × Option String)) (key : String) : String :=
  match lookupKey opts key with
  | some (some s) => s
  | some none => ""
  | none => ""

/-! ## watchdog (kernel.py lines 177-184) -/

/-- Embedding of the body of `AbstractKernelRunner.watchdog` after the sleep
of `exec_timeout` completes without cancellation.  The source reads

    if self.output_queue is not None:
        self.output_queue.put(ResultRecord('exec-timeout', None))

`asyncio.Queue.put` is a coroutine function and the call is not awaited: it
only creates a coroutine object which is immediately discarded, so no queue
operation ever runs.  The active output queue is therefore returned
unchanged. -/
def watchdog_fire (output_queue : Option (List ResultRecord)) :
    Option (List ResultRecord) :=
  match output_queue with
  | none => none
  | some items => some items

/-- Modelled from the spec: section 4.5 Watchdog says that on fire the
watchdog "posts an exec-timeout record into the active output queue"; this is
the queue effect the source intends (an awaited put, which appends the record
when the queue is below its 4096-record capacity). -/
def watchdog_fire_intended (output_queue : Option (List ResultRecord)) :
    Option (List ResultRecord) :=
  match output_queue with
  | none => none
  | some items =>
      if items.length < 4096 then some (items ++ [⟨"exec-timeout", none⟩])
      else some items

/-! ## read_output (kernel.py lines 398-464) -/

/-- kernel.py `max_record_size` (10 MiB). -/
def max_record_size : Nat := 10485760

/-- The queue state visible to one iteration of `read_output`: the active
per-run output queue (`None` when unset, otherwise its current items;
capacity 4096) and the dedicated completion / service queues
(capacity 128 each). -/
structure ReadState where
  output_queue : Option (List ResultRecord)
  completion_queue : List (List Nat)
  service_queue : List (List Nat)
deriving DecidableEq

/-- Outcome of one iteration of the `read_output` loop on one received frame:
either the loop proceeds with a new state, or the reading task is suspended
in an `await queue.put(...)` on a full bounded queue (asyncio blocks the
producer until space frees; `asyncio.QueueFull` is only raised by
`put_nowait`, so the `except asyncio.QueueFull: pass` branch of the source is
unreachable). -/
inductive ReadStep where
  | proceed (s : ReadState)
  | blockedOnFullQueue
deriving DecidableEq

/-- Embedding of one iteration of `AbstractKernelRunner.read_output` on a
received (msg_type, msg_data) frame.  The incremental stdout/stderr decoders
and the plain UTF-8 decoding of other payloads are abstracted as the supplied
pure functions (their state does not matter to the routing of frames).
Payloads longer than `max_record_size` are truncated on receipt; `status`
frames are parsed and discarded; `completion` / `service-result` payloads go
to their dedicated queues; every other frame goes to the active output queue,
and is dropped when that queue is unset. -/
def read_output_step (decode0 decode1 decodeOther : List Nat → String)
    (s : ReadState) (msg_type : String) (msg_data0 : List Nat) : ReadStep :=
  let msg_data := if msg_data0.length > max_record_size
    then msg_data0.take max_record_size else msg_data0
  if msg_type = "status" then
    .proceed s
  else if msg_type = "completion" then
    if s.completion_queue.length < 128 then
      .proceed { s with completion_queue := s.completion_queue ++ [msg_data] }
    else .blockedOnFullQueue
  else if msg_type = "service-result" then
    if s.service_queue.length < 128 then
      .proceed { s with service_queue := s.service_queue ++ [msg_data] }
    else .blockedOnFullQueue
  else if msg_type = "stdout" then
    match s.output_queue with
    | none => .proceed s
    | some items =>
        if items.length < 4096 then
          let rec2 : ResultRecord := ⟨"stdout", some (decode0 msg_data)⟩
          .proceed { s with output_queue := some (items ++ [rec2]) }
        else .blockedOnFullQueue
  else if msg_type = "stderr" then
    match s.output_queue with
    | none => .proceed s
    | some items =>
        if items.length < 4096 then
          let rec2 : ResultRecord := ⟨"stderr", some (decode1 msg_data)⟩
          .proceed { s with output_queue := some (items ++ [rec2]) }
        else .blockedOnFullQueue
  else
    match s.output_queue with
    | none => .proceed s
    | some items =>
        if items.length < 4096 then
          let rec2 : ResultRecord := ⟨msg_type, some (decodeOther msg_data)⟩
          .proceed { s with output_queue := some (items ++ [rec2]) }
        else .blockedOnFullQueue

/-! ## collect_logs (agent.py lines 357-405) -/

/-- Embedding of the inner `while chunk_length >= chunk_size` loop of
`AbstractAgent.collect_logs`: repeatedly push the first `chunk_size` bytes of
the buffer as one record and keep the remainder, until the buffer is shorter
than `chunk_size`.  Returns (pushed records, remaining buffer).  The source
does not guard against `chunk_size = 0` (its loop would then never leave);
the model makes that case return immediately, and every claim about it below
assumes a positive chunk size. -/
def drainChunks (chunk_size : Nat) (buf : List Nat) : List (List Nat) × List Nat :=
  if h : 0 < chunk_size ∧ chunk_size ≤ buf.length then
    let rest := drainChunks chunk_size (buf.drop chunk_size)
    (buf.take chunk_size :: rest.1, rest.2)
  else ([], buf)
termination_by buf.length
decreasing_by
  simp only [List.length_drop]
  omega

/-- One step of the `async for fragment in async_log_iterator` loop of
`collect_logs`: append the fragment to the chunk buffer, then drain all full
chunks from it. -/
def logStep (chunk_size : Nat) (st : List (List Nat) × List Nat)
    (frag : List Nat) : List (List Nat) × List Nat :=
  let d := drainChunks chunk_size (st.2 ++ frag)
  (st.1 ++ d.1, d.2)

/-- Embedding of `AbstractAgent.collect_logs` restricted to its observable
pushes: the list of records rpushed under `containerlog.<container-id>`, in
order, for a finite sequence of log fragments.  After the iterator completes
the residual tail is pushed only when non-empty. -/
def collect_logs (chunk_size : Nat) (fragments : List (List Nat)) :
    List (List Nat) :=
  let fin := fragments.foldl (logStep chunk_size) ([], [])
  fin.1 ++ (if fin.2.length > 0 then [fin.2] else [])

/-! ## Kernel registry and lifecycle events (agent.py) -/

/-- The fields of a registered kernel handle that the lifecycle handlers
touch: its container id, its allocated host ports, the termination-reason
flag (Python `None` when unset) and the stats-enabled flag. -/
structure KernelObject where
  container_id : String
  host_ports : List Nat
  termination_reason : Option String
  stats_enabled : Bool
deriving DecidableEq

/-- agent.py `LifecycleEvent` kinds. -/
inductive LifecycleKind where
  | START
  | DESTROY
  | CLEAN
deriving DecidableEq

/-- agent.py `ContainerLifecycleEvent` (without the done-notifier and exit
code, which no checked claim concerns). -/
structure LCEvent where
  kernel_id : String
  container_id : Option String
  kind : LifecycleKind
  reason : String
deriving DecidableEq

/-- Remove the first binding of `key` from an association list
(Python `dict.pop(key, None)` on a dict with unique keys). -/
def eraseKey {β : Type} : List (String × β) → String → List (String × β)
  | [], _ => []
  | (k, v) :: rest, key =>
      if k = key then rest else (k, v) :: eraseKey rest key

/-- Replace the value of the first binding of `key` in an association list
(Python `d[key] = nv` on a dict that already holds the key). -/
def updateKey {β : Type} : List (String × β) → String → β → List (String × β)
  | [], _, _ => []
  | (k, v) :: rest, key, nv =>
      if k = key then (k, nv) :: rest else (k, v) :: updateKey rest key nv

/-! ## The CLEAN handler finally block (agent.py lines 481-527) -/

/-- Embedding of the port-restoring finally block of
`AbstractAgent._handle_clean_event`: when the kernel is still registered,
the host ports lying inside the configured inclusive port range are added
back to the port pool and the kernel is removed from the registry; when the
kernel is absent nothing changes.  Returns (new port pool, new registry);
the pool is a set, so it is modelled up to membership. -/
def handle_clean_finally (port_range : Nat × Nat) (port_pool : List Nat)
    (registry : List (String × KernelObject)) (kernel_id : String) :
    List Nat × List (String × KernelObject) :=
  match lookupKey registry kernel_id with
  | none => (port_pool, registry)
  | some obj =>
      let restored_ports := obj.host_ports.filter
        (fun p => decide (port_range.1 ≤ p ∧ p ≤ port_range.2))
      (port_pool ++ restored_ports, eraseKey registry kernel_id)

/-! ## inject_container_lifecycle_event and the DESTROY handler
(agent.py lines 444-479 and 552-587) -/

/-- The agent state the termination-reason claims concern: the kernel
registry and the container lifecycle FIFO. -/
structure AgentState where
  registry : List (String × KernelObject)
  lifecycle_queue : List LCEvent
deriving DecidableEq

/-- Embedding of `AbstractAgent.inject_container_lifecycle_event`: when the
kernel is registered and its termination-reason is already set to a truthy
(non-empty) value, the enqueued event carries that existing reason instead of
the given one, and the event's container id is taken from the handle; when
the kernel is unknown the event is enqueued as given. -/
def inject_container_lifecycle_event (s : AgentState) (kernel_id : String)
    (kind : LifecycleKind) (reason : String) (container_id : Option String) :
    AgentState :=
  match lookupKey s.registry kernel_id with
  | some obj =>
      let reason2 := match obj.termination_reason with
        | some r => if r = "" then reason else r
        | none => reason
      { s with lifecycle_queue :=
          s.lifecycle_queue ++ [⟨kernel_id, some obj.container_id, kind, reason2⟩] }
  | none =>
      { s with lifecycle_queue :=
          s.lifecycle_queue ++ [⟨kernel_id, container_id, kind, reason⟩] }

/-- Embedding of `AbstractAgent._handle_destroy_event` restricted to its
registry/queue effects: a registered kernel gets stats disabled and its
termination_reason set (unconditionally) to the event's reason; a missing
kernel with a known container id causes a follow-up CLEAN to be enqueued;
a missing kernel without container id only produces a kernel_terminated
event (no state change modelled here). -/
def handle_destroy_event (s : AgentState) (ev : LCEvent) : AgentState :=
  match lookupKey s.registry ev.kernel_id with
  | none =>
      match ev.container_id with
      | none => s
      | some cid =>
          let ev2 : LCEvent := ⟨ev.kernel_id, some cid, .CLEAN, ev.reason⟩
          { s with lifecycle_queue := s.lifecycle_queue ++ [ev2] }
  | some obj =>
      let obj2 : KernelObject :=
        { obj with stats_enabled := false, termination_reason := some ev.reason }
      { s with registry := updateKey s.registry ev.kernel_id obj2 }

/-! ## The device-allocation stage of create_kernel
(agent.py lines 1215-1242) -/

/-- Pointwise update of the total map holding each computer's alloc map
(`self.computers[dev].alloc_map` is mutated in place in the source). -/
def updateFn {M : Type} (computers : String → M) (dev : String) (m : M) :
    String → M :=
  fun d => if d = dev then m else computers d

/-- Embedding of the slot-allocation loop of `AbstractAgent.create_kernel`
with `restarting=false`: for each device name (in loop order), call that
computer's `alloc_map.allocate` — abstracted as the supplied plugin function
from device name, current alloc map and device-specific slot request to
either the updated map plus the allocation recorded into the resource spec,
or an `InsufficientResource` error.  On an error the `except
InsufficientResource` handler at agent.py:1237 only logs and re-raises, so
the error surfaces carrying the maps as mutated by the earlier successful
allocations of the same call. -/
def create_kernel_allocate {M R A E : Type}
    (allocate : String → M → R → Except E (M × A)) :
    List (String × R) → (String → M) →
    Except (E × (String → M)) ((String → M) × List (String × A))
  | [], computers => .ok (computers, [])
  | (dev, req) :: rest, computers =>
      match allocate dev (computers dev) req with
      | .error e => .error (e, computers)
      | .ok (m2, alloc) =>
          match create_kernel_allocate allocate rest (updateFn computers dev m2) with
          | .error p => .error p
          | .ok (ms, allocs) => .ok (ms, (dev, alloc) :: allocs)

/-- A concrete two-device plugin for exercising the allocation stage: each
device's alloc map is its number of free slots, and allocating `req` slots
succeeds exactly when `req` of them are free. -/
def demoAllocate : String → Nat → Nat → Except String (Nat × Nat) :=
  fun _ free req =>
    if req ≤ free then .ok (free - req, req) else .error "InsufficientResource"

/-- Concrete computer set: 4 free cpu slots, 0 free slots of anything else
(in particular 0 of cuda). -/
def demoComputers : String → Nat := fun d => if d = "cpu" then 4 else 0

/-! ## match_krunner_volume (kernel.py lines 467-500) -/

/-- Whether a character list matches the version grammar of the source's
trailing-version regular expression: one or more dot-separated non-empty
all-digit components. -/
def isVerStr (s : List Char) : Bool :=
  !s.isEmpty && (s.splitOn '.').all (fun comp => !comp.isEmpty && comp.all Char.isDigit)

/-- The version suffix the source's suffix-anchored regex search finds in a
distro string: the longest suffix matching the version grammar (a
suffix-anchored search returns the leftmost start position whose whole
remainder matches), or none. -/
def verSuffix (s : List Char) : Option (List Char) :=
  ((List.range (s.length + 1)).filterMap
    (fun i => if isVerStr (s.drop i) then some (s.drop i) else none)).head?

/-- Python `int` on an all-digit component. -/
def parseNatDigits (comp : List Char) : Nat :=
  comp.foldl (fun acc c => acc * 10 + (c.toNat - '0'.toNat)) 0

/-- The sort key the source builds from a version string:
`tuple(map(int, ver.split('.')))`, compared as Python tuples — which is the
lexicographic order on `List Nat`. -/
def verValue (s : List Char) : List Nat := (s.splitOn '.').map parseNatDigits

/-- The sort key of a krunner-volumes key (defaulting to the empty tuple
when the key has no version suffix; the source would raise AttributeError in
that case, which match_krunner_volume checks before sorting). -/
def verKeyOf (k : List Char) : List Nat := ((verSuffix k).map verValue).getD []

/-- Stable descending insertion by sort key (Python `sorted(...,
reverse=True)` is a stable descending sort). -/
def insertDescBy {α : Type} (keyOf : α → List Nat) (x : α) :
    List α → List α
  | [] => [x]
  | y :: rest =>
      if keyOf y ≤ keyOf x then x :: y :: rest
      else y :: insertDescBy keyOf x rest

/-- Stable descending sort by key. -/
def sortDescBy {α : Type} (keyOf : α → List Nat) : List α → List α
  | [] => []
  | x :: rest => insertDescBy keyOf x (sortDescBy keyOf rest)

/-- The distro prefix the source strips: the distro string without its
version suffix (the whole string when there is none). -/
def distroStem (distro : List Char) : List Char :=
  match verSuffix distro with
  | none => distro
  | some v => distro.take (distro.length - v.length)

/-- The krunner-volumes entries whose key starts with the distro prefix. -/
def krunnerFiltered {α : Type} (vols : List (List Char × α))
    (distro : List Char) : List (List Char × α) :=
  vols.filter (fun kv => (distroStem distro).isPrefixOf kv.1)

/-- The error outcomes of match_krunner_volume: AttributeError (a filtered
key with no version suffix reaches the sort key function) or the
RuntimeError('krunner volume not found'). -/
inductive KrunnerErr where
  | attributeError
  | notFound
deriving DecidableEq

/-- The body of match_krunner_volume after the sort keys are known to exist:
sort the prefix-filtered entries by version descending; with no version
suffix on the distro return the first (highest) entry; with a version suffix
return the entry whose key equals the distro exactly, scanning the sorted
list; otherwise RuntimeError. -/
def match_krunner_core {α : Type} (vols : List (List Char × α))
    (distro : List Char) : Except KrunnerErr (List Char × α) :=
  match sortDescBy (fun kv => verKeyOf kv.1) (krunnerFiltered vols distro) with
  | [] => .error .notFound
  | top :: rest =>
      match verSuffix distro with
      | none => .ok top
      | some _ =>
          match (sortDescBy (fun kv => verKeyOf kv.1)
              (krunnerFiltered vols distro)).find?
              (fun kv => decide (kv.1 = distro)) with
          | some kv => .ok kv
          | none => .error .notFound

/-- Embedding of kernel.py `match_krunner_volume`: filter the mapping's
entries to those whose key starts with the distro prefix, sort them by
version descending (evaluating the sort key raises AttributeError when a
filtered key has no version suffix), then pick the first entry (no version
requested) or the exactly matching key (version requested), else raise. -/
def match_krunner_volume {α : Type} (vols : List (List Char × α))
    (distro : List Char) : Except KrunnerErr (List Char × α) :=
  if ∀ kv ∈ krunnerFiltered vols distro, (verSuffix kv.1).isSome then
    match_krunner_core vols distro
  else .error .attributeError

/-! ## Multiplexed output queues of get_next_result
(kernel.py lines 251-343 and 370-396) -/

/-- The per-runner queue-multiplex state.  `pending` models the OrderedDict
`pending_queues` (run id, queue contents, in insertion order); `activated`
the set of run ids whose activation event is currently set; `output_owner`
the run owning the queue `self.output_queue` references (none = unset) and
`output_items` that queue's current contents.  In the source the active
queue object is shared with its `pending_queues` entry; the model keeps the
live contents in `output_items` only — sound because frames are delivered
only to the active queue, `next_output_queue` removes the current entry
before popping the next, and a never-active pending queue is empty. -/
structure RunnerQState where
  pending : List (String × List ResultRecord)
  activated : List String
  output_owner : Option String
  output_items : List ResultRecord
  current_run_id : Option String
deriving DecidableEq

/-- Embedding of `resume_output_queue`: `pending_queues.move_to_end(
current_run_id, last=False)` — the current run's entry moves to the head of
the pending order, everything else (in particular the active queue) is
unchanged.  `none` models the KeyError Python raises when the current run id
is no key of `pending_queues` (or is `None`). -/
def resume_output_queue (s : RunnerQState) : Option RunnerQState :=
  match s.current_run_id with
  | none => none
  | some rid =>
      match lookupKey s.pending rid with
      | some q => some ⟨(rid, q) :: eraseKey s.pending rid, s.activated,
          s.output_owner, s.output_items, s.current_run_id⟩
      | none => none

/-- Embedding of `next_output_queue`: assert the current run id is set, drop
its entry from `pending_queues` (pop with default — no error when absent),
clear the current run id; then pop the first pending entry, if any, make its
queue the active output queue and set its activation event, else unset the
active queue. -/
def next_output_queue (s : RunnerQState) : Option RunnerQState :=
  match s.current_run_id with
  | none => none
  | some rid =>
      match eraseKey s.pending rid with
      | [] => some ⟨[], s.activated, none, [], none⟩
      | (rid2, q2) :: rest =>
          some ⟨rest, rid2 :: s.activated, some rid2, q2, none⟩

/-- How the drain loop of `get_next_result` ends: by one of the five control
records, or with the queue exhausted (the awaited `get` would suspend, which
surfaces as the flush timeout when the client advertises continuation). -/
inductive DrainOut where
  | finishedRun
  | cleanFin
  | buildFin
  | waitingInput
  | execTimeout
  | exhausted
deriving DecidableEq

/-- The drain loop of `get_next_result`: read records in order, collect the
client-visible ones, stop at the first control record.  Returns (collected
records, outcome, records left in the queue). -/
def drainLoop : List ResultRecord → List ResultRecord →
    List ResultRecord × DrainOut × List ResultRecord
  | [], acc => (acc.reverse, .exhausted, [])
  | r :: rest, acc =>
      let acc2 := if r.msg_type ∈ outgoing_msg_types then r :: acc else acc
      if r.msg_type = "finished" then (acc2.reverse, .finishedRun, rest)
      else if r.msg_type = "clean-finished" then (acc2.reverse, .cleanFin, rest)
      else if r.msg_type = "build-finished" then (acc2.reverse, .buildFin, rest)
      else if r.msg_type = "waiting-input" then (acc2.reverse, .waitingInput, rest)
      else if r.msg_type = "exec-timeout" then (acc2.reverse, .execTimeout, rest)
      else drainLoop rest acc2

/-- The ways `get_next_result` can fail to return a result: the active output
queue is unset (`await None.get()` raises AttributeError), the queue is
exhausted with no continuation feature (the task would stay suspended), or
`resume_output_queue` raises KeyError. -/
inductive RunFailure where
  | attributeErr
  | suspended
  | keyErr
deriving DecidableEq

/-- Embedding of `get_next_result` restricted to its status and queue-state
effects: drain the active queue until a control record (or exhaustion with
the continuation feature, modelling the flush timeout), map the ending to
the result status, and conclude with `resume_output_queue` (continued /
waiting-input / build-finished / clean-finished) or `next_output_queue`
(finished / exec-timeout).  Returns (status, collected records, new state).
The exit code / options parsed from control payloads are not modelled. -/
def get_next_result (s : RunnerQState) (has_continuation : Bool) :
    Except RunFailure (String × List ResultRecord × RunnerQState) :=
  match s.output_owner with
  | none => .error .attributeErr
  | some _ =>
      let d := drainLoop s.output_items []
      let s2 : RunnerQState := ⟨s.pending, s.activated, s.output_owner,
        d.2.2, s.current_run_id⟩
      match d.2.1 with
      | .exhausted =>
          if has_continuation then
            match resume_output_queue s2 with
            | some s3 => .ok ("continued", d.1, s3)
            | none => .error .keyErr
          else .error .suspended
      | .cleanFin =>
          match resume_output_queue s2 with
          | some s3 => .ok ("clean-finished", d.1, s3)
          | none => .error .keyErr
      | .buildFin =>
          match resume_output_queue s2 with
          | some s3 => .ok ("build-finished", d.1, s3)
          | none => .error .keyErr
      | .waitingInput =>
          match resume_output_queue s2 with
          | some s3 => .ok ("waiting-input", d.1, s3)
          | none => .error .keyErr
      | .finishedRun =>
          match next_output_queue s2 with
          | some s3 => .ok ("finished", d.1, s3)
          | none => .error .keyErr
      | .execTimeout =>
          match next_output_queue s2 with
          | some s3 => .ok ("exec-timeout", d.1, s3)
          | none => .error .keyErr

/-! ## aggregate_console (kernel.py lines 186-249) -/

/-- A console entry's payload: plain text, or the (type, data) pair parsed
from a media record's JSON payload. -/
inductive ConsoleData where
  | text (s : String)
  | pair (p : String × String)
deriving DecidableEq

/-- The four v1 result fields set by aggregate_console. -/
structure AggV1 where
  stdout : String
  stderr : String
  media : List (String × String)
  html : List String
deriving DecidableEq

/-- Python `''.join(items)`. -/
def joinStr : List String → String
  | [] => ""
  | s :: rest => s ++ joinStr rest

/-- Embedding of the api_ver=1 loop of `aggregate_console`: the four item
lists are accumulated in record order, then stdout/stderr are joined.  The
JSON parse of a media payload is abstracted as the supplied `pm`. -/
def aggV1Loop (pm : String → String × String) :
    List String → List String → List (String × String) → List String →
    List ResultRecord → AggV1
  | so_items, se_items, m_items, h_items, [] =>
      ⟨joinStr so_items, joinStr se_items, m_items, h_items⟩
  | so_items, se_items, m_items, h_items, r :: rest =>
      if r.msg_type = "stdout" then
        aggV1Loop pm (so_items ++ [r.data.getD ""]) se_items m_items h_items rest
      else if r.msg_type = "stderr" then
        aggV1Loop pm so_items (se_items ++ [r.data.getD ""]) m_items h_items rest
      else if r.msg_type = "media" then
        aggV1Loop pm so_items se_items (m_items ++ [pm (r.data.getD "")]) h_items rest
      else if r.msg_type = "html" then
        aggV1Loop pm so_items se_items m_items (h_items ++ [r.data.getD ""]) rest
      else aggV1Loop pm so_items se_items m_items h_items rest

/-- Embedding of the api_ver in (2, 3) loop of `aggregate_console` together
with its final flushes: `last_stdout` / `last_stderr` are the two StringIO
coalescing buffers (`tell() != 0` is modelled as being non-empty).  For each
record, a non-empty stdout buffer is flushed when the record is not stdout
(and likewise for stderr), then the record is dispatched: stdout/stderr
append to their buffer, media appends a parsed (type, data) entry, the other
client-visible types append a (type, payload) entry, anything else is
dropped.  After the last record both buffers are flushed. -/
def aggRun (pm : String → String × String) :
    String → String → List ResultRecord → List (String × ConsoleData)
  | so, se, [] =>
      (if so ≠ "" then [("stdout", ConsoleData.text so)] else [])
        ++ (if se ≠ "" then [("stderr", ConsoleData.text se)] else [])
  | so, se, r :: rest =>
      let flushOut : List (String × ConsoleData) :=
        if so ≠ "" ∧ r.msg_type ≠ "stdout"
          then [("stdout", ConsoleData.text so)] else []
      let so2 := if so ≠ "" ∧ r.msg_type ≠ "stdout" then "" else so
      let flushErr : List (String × ConsoleData) :=
        if se ≠ "" ∧ r.msg_type ≠ "stderr"
          then [("stderr", ConsoleData.text se)] else []
      let se2 := if se ≠ "" ∧ r.msg_type ≠ "stderr" then "" else se
      flushOut ++ flushErr ++
        (if r.msg_type = "stdout" then aggRun pm (so2 ++ r.data.getD "") se2 rest
         else if r.msg_type = "stderr" then aggRun pm so2 (se2 ++ r.data.getD "") rest
         else if r.msg_type = "media" then
           ("media", ConsoleData.pair (pm (r.data.getD ""))) :: aggRun pm so2 se2 rest
         else if r.msg_type ∈ outgoing_msg_types then
           (r.msg_type, ConsoleData.text (r.data.getD "")) :: aggRun pm so2 se2 rest
         else aggRun pm so2 se2 rest)

/-- What aggregate_console writes into the result dict: the four v1 fields,
or the v2/v3 console list. -/
inductive AggOut where
  | v1 (r : AggV1)
  | console (items : List (String × ConsoleData))
deriving DecidableEq

/-- Embedding of `AbstractKernelRunner.aggregate_console` (static method):
dispatch on the api version; an unrecognized version raises AssertionError
(`none`). -/
def aggregate_console (pm : String → String × String) (api_ver : Nat)
    (records : List ResultRecord) : Option AggOut :=
  if api_ver = 1 then some (.v1 (aggV1Loop pm [] [] [] [] records))
  else if api_ver = 2 ∨ api_ver = 3 then some (.console (aggRun pm "" "" records))
  else none

/-- The concatenated payloads of a record run. -/
def concatData : List ResultRecord → String
  | [] => ""
  | r :: rest => r.data.getD "" ++ concatData rest

/-- Specification-side console list for C8, following the claim's words: the
entries appear in record order; every maximal run of consecutive stdout
records (and, independently, of consecutive stderr records) is coalesced
into a single concatenated entry — except that a run whose concatenated
payload is empty yields no entry (the source's StringIO buffer stays at
tell()=0); media records yield a parsed pair entry, the remaining
client-visible types yield a (type, payload) entry, and records of
non-client-visible types yield no entry. -/
def coalesceRuns (pm : String → String × String) :
    List ResultRecord → List (String × ConsoleData)
  | [] => []
  | r :: rest =>
      if r.msg_type = "stdout" then
        let run := r.data.getD ""
          ++ concatData (rest.takeWhile (fun x => decide (x.msg_type = "stdout")))
        (if run ≠ "" then [("stdout", ConsoleData.text run)] else [])
          ++ coalesceRuns pm (rest.dropWhile (fun x => decide (x.msg_type = "stdout")))
      else if r.msg_type = "stderr" then
        let run := r.data.getD ""
          ++ concatData (rest.takeWhile (fun x => decide (x.msg_type = "stderr")))
        (if run ≠ "" then [("stderr", ConsoleData.text run)] else [])
          ++ coalesceRuns pm (rest.dropWhile (fun x => decide (x.msg_type = "stderr")))
      else if r.msg_type = "media" then
        ("media", ConsoleData.pair (pm (r.data.getD ""))) :: coalesceRuns pm rest
      else if r.msg_type ∈ outgoing_msg_types then
        (r.msg_type, ConsoleData.text (r.data.getD "")) :: coalesceRuns pm rest
      else coalesceRuns pm rest
termination_by l => l.length
decreasing_by
  all_goals simp only [List.length_cons]
  all_goals first
    | exact Nat.lt_succ_of_le ((List.dropWhile_sublist _).length_le)
    | omega

/-! ## Theorems -/

/-- Claim C10: for every opts mapping, feed_batch sends exactly three
input-channel messages tagged clean, build and exec in that order, and an
absent or `None` opts entry yields an empty-string payload (a frame is never
omitted and `None` is never serialized). -/
theorem feed_batch_three_frames (opts : List (String × Option String)) :
    feed_batch opts =
      [("clean", claimedPayload opts "clean"),
       ("build", claimedPayload opts "build"),
       ("exec", claimedPayload opts "exec")] := by
  unfold feed_batch claimedPayload dictGetD
  rcases h1 : lookupKey opts "clean" with _ | v1 <;>
    rcases h2 : lookupKey opts "build" with _ | v2 <;>
      rcases h3 : lookupKey opts "exec" with _ | v3 <;>
        first
          | rfl
          | (cases v1 <;> cases v2 <;> cases v3 <;> rfl)
          | (cases v1 <;> cases v2 <;> rfl)
          | (cases v1 <;> cases v3 <;> rfl)
          | (cases v2 <;> cases v3 <;> rfl)
          | (cases v1 <;> rfl)
          | (cases v2 <;> rfl)
          | (cases v3 <;> rfl)

/-- Claim C2 (code bug): the watchdog body never enqueues anything — the
active queue is left unchanged for every contents — whereas the intended
behaviour appends an exec-timeout record; at the empty active queue the two
visibly differ, so no subsequent get_next_result can observe the
exec-timeout status from the watchdog's action. -/
theorem watchdog_enqueues_nothing :
    (∀ items, watchdog_fire (some items) = some items) ∧
    watchdog_fire_intended (some []) = some [⟨"exec-timeout", none⟩] ∧
    watchdog_fire (some []) ≠ watchdog_fire_intended (some []) := by
  refine ⟨fun items => rfl, rfl, ?_⟩
  decide

/-- Claim C3 (code bug): with the active output queue unset, an incoming
stdout frame is indeed dropped (first conjunct, the true half of the claim);
but when the active queue already holds 4096 records the reading task does
NOT drop the frame — it suspends in `await self.output_queue.put(...)` until
space frees, because `await put` on a full `asyncio.Queue` blocks and never
raises `asyncio.QueueFull`, making the source's
`except asyncio.QueueFull: pass` handler unreachable. -/
theorem read_output_full_queue_blocks :
    (∀ decode0 decode1 decodeOther data,
      read_output_step decode0 decode1 decodeOther
        ⟨none, [], []⟩ "stdout" data = .proceed ⟨none, [], []⟩) ∧
    (read_output_step (fun _ => "") (fun _ => "") (fun _ => "")
        ⟨some (List.replicate 4096 ⟨"stdout", some ""⟩), [], []⟩ "stdout" []
      = .blockedOnFullQueue) := by
  constructor
  · intro decode0 decode1 decodeOther data
    rfl
  · have hlen : (List.replicate 4096 (⟨"stdout", some ""⟩ : ResultRecord)).length = 4096 :=
      List.length_replicate _ _
    unfold read_output_step
    simp only [hlen]
    simp

theorem drainChunks_spec (chunk_size : Nat) (hcs : 0 < chunk_size) :
    ∀ (n : Nat) (buf : List Nat), buf.length ≤ n →
      (drainChunks chunk_size buf).1.flatten ++ (drainChunks chunk_size buf).2
          = buf ∧
      (∀ c ∈ (drainChunks chunk_size buf).1, c.length = chunk_size) ∧
      (drainChunks chunk_size buf).2.length < chunk_size := by
  intro n
  induction n with
  | zero =>
      intro buf hlen
      have hb : buf = [] := List.eq_nil_of_length_eq_zero (Nat.le_zero.mp hlen)
      subst hb
      rw [drainChunks]
      have hcond : ¬ (0 < chunk_size ∧ chunk_size ≤ ([] : List Nat).length) := by
        simp; omega
      rw [dif_neg hcond]
      refine ⟨rfl, by simp, by simpa using hcs⟩
  | succ n ih =>
      intro buf hlen
      rw [drainChunks]
      by_cases hcond : 0 < chunk_size ∧ chunk_size ≤ buf.length
      · rw [dif_pos hcond]
        have hdrop : (buf.drop chunk_size).length ≤ n := by
          simp only [List.length_drop]
          omega
        obtain ⟨ihj, ihm, ihr⟩ := ih (buf.drop chunk_size) hdrop
        refine ⟨?_, ?_, ihr⟩
        · simp only [List.flatten_cons, List.append_assoc, ihj]
          exact List.take_append_drop chunk_size buf
        · intro c hc
          rcases List.mem_cons.mp hc with hc | hc
          · subst hc
            simp only [List.length_take]
            omega
          · exact ihm c hc
      · rw [dif_neg hcond]
        refine ⟨rfl, by simp, ?_⟩
        simp only []
        omega

theorem collect_fold_spec (chunk_size : Nat) (hcs : 0 < chunk_size) :
    ∀ (frags : List (List Nat)) (acc : List (List Nat)) (buf : List Nat),
      buf.length < chunk_size →
      ((frags.foldl (logStep chunk_size) (acc, buf)).1.flatten
          ++ (frags.foldl (logStep chunk_size) (acc, buf)).2
        = acc.flatten ++ buf ++ frags.flatten) ∧
      (∀ c ∈ (frags.foldl (logStep chunk_size) (acc, buf)).1,
        c ∈ acc ∨ c.length = chunk_size) ∧
      (frags.foldl (logStep chunk_size) (acc, buf)).2.length < chunk_size := by
  intro frags
  induction frags with
  | nil =>
      intro acc buf hbuf
      refine ⟨by simp, fun c hc => Or.inl hc, hbuf⟩
  | cons f fs ih =>
      intro acc buf hbuf
      have hstep : List.foldl (logStep chunk_size) (acc, buf) (f :: fs)
          = List.foldl (logStep chunk_size) (logStep chunk_size (acc, buf) f) fs := rfl
      obtain ⟨dj, dm, dr⟩ :=
        drainChunks_spec chunk_size hcs (buf ++ f).length (buf ++ f) le_rfl
      have hlog : logStep chunk_size (acc, buf) f
          = (acc ++ (drainChunks chunk_size (buf ++ f)).1,
             (drainChunks chunk_size (buf ++ f)).2) := rfl
      obtain ⟨ihj, ihm, ihr⟩ :=
        ih (acc ++ (drainChunks chunk_size (buf ++ f)).1)
          (drainChunks chunk_size (buf ++ f)).2 dr
      rw [hstep, hlog]
      refine ⟨?_, ?_, ihr⟩
      · rw [ihj]
        have hmid : (drainChunks chunk_size (buf ++ f)).1.flatten
              ++ ((drainChunks chunk_size (buf ++ f)).2 ++ fs.flatten)
            = (buf ++ f) ++ fs.flatten := by
          rw [← List.append_assoc, dj]
        simp only [List.flatten_append, List.flatten_cons, List.append_assoc]
        rw [hmid]
        simp [List.append_assoc]
      · intro c hc
        rcases ihm c hc with hc2 | hc2
        · rcases List.mem_append.mp hc2 with hc3 | hc3
          · exact Or.inl hc3
          · exact Or.inr (dm c hc3)
        · exact Or.inr hc2

/-- Claim C9: for every finite sequence of log fragments (and positive
configured chunk size), collect_logs pushes a record of exactly chunk-size
bytes each time the buffered length reaches the chunk size (every record but
the last is full-size), never pushes an empty record (so the residual tail is
pushed only when non-empty), pushes only full-size records when the total
length is an exact multiple of the chunk size (no spurious tail record), and
the concatenation of all pushed records equals the concatenation of all
fragments. -/
theorem collect_logs_chunking (chunk_size : Nat) (fragments : List (List Nat))
    (hcs : 0 < chunk_size) :
    (collect_logs chunk_size fragments).flatten = fragments.flatten ∧
    (∀ c ∈ (collect_logs chunk_size fragments).dropLast,
      c.length = chunk_size) ∧
    (∀ c ∈ collect_logs chunk_size fragments,
      0 < c.length ∧ c.length ≤ chunk_size) ∧
    (chunk_size ∣ fragments.flatten.length →
      ∀ c ∈ collect_logs chunk_size fragments, c.length = chunk_size) := by
  obtain ⟨hj, hm, hr⟩ :=
    collect_fold_spec chunk_size hcs fragments [] [] (by simpa using hcs)
  simp only [List.flatten_nil, List.nil_append] at hj
  set fin := fragments.foldl (logStep chunk_size) ([], []) with hfin
  have hm2 : ∀ c ∈ fin.1, c.length = chunk_size := by
    intro c hc
    rcases hm c hc with hc2 | hc2
    · simp at hc2
    · exact hc2
  have hcl : collect_logs chunk_size fragments
      = fin.1 ++ (if fin.2.length > 0 then [fin.2] else []) := rfl
  rw [hcl]
  by_cases htail : fin.2.length > 0
  · rw [if_pos htail]
    have hdrop : (fin.1 ++ [fin.2]).dropLast = fin.1 := List.dropLast_concat ..
    refine ⟨?_, ?_, ?_, ?_⟩
    · simp only [List.flatten_append, List.flatten_cons, List.flatten_nil,
        List.append_nil]
      exact hj
    · intro c hc
      rw [hdrop] at hc
      exact hm2 c hc
    · intro c hc
      rcases List.mem_append.mp hc with hc2 | hc2
      · exact ⟨(hm2 c hc2) ▸ hcs, le_of_eq (hm2 c hc2)⟩
      · have : c = fin.2 := by simpa using hc2
        subst this
        exact ⟨htail, le_of_lt hr⟩
    · intro hdvd c hc
      exfalso
      have hrep : fin.1.map List.length
          = List.replicate (fin.1.map List.length).length chunk_size := by
        apply List.eq_replicate_of_mem
        intro b hb
        obtain ⟨c2, hc2, hateq⟩ := List.mem_map.mp hb
        rw [← hateq]
        exact hm2 c2 hc2
      have hflatlen : fin.1.flatten.length = fin.1.length * chunk_size := by
        rw [List.length_flatten, hrep, List.sum_replicate]
        simp [smul_eq_mul]
      have htotal : fragments.flatten.length = fin.1.length * chunk_size + fin.2.length := by
        rw [← hj]
        simp [hflatlen]
      have hdvd2 : chunk_size ∣ fin.2.length := by
        have h1 : chunk_size ∣ fin.1.length * chunk_size :=
          dvd_mul_left chunk_size fin.1.length
        have := hdvd
        rw [htotal] at this
        exact (Nat.dvd_add_right h1).mp this
      have := Nat.eq_zero_of_dvd_of_lt hdvd2 hr
      omega
  · rw [if_neg htail]
    have hfin2 : fin.2 = [] := by
      simp only [gt_iff_lt, Nat.not_lt, Nat.le_zero] at htail
      exact List.eq_nil_of_length_eq_zero htail
    refine ⟨?_, ?_, ?_, ?_⟩
    · rw [List.append_nil, ← hj, hfin2, List.append_nil]
    · intro c hc
      exact hm2 c (List.dropLast_subset _ (by simpa using hc))
    · intro c hc
      rw [List.append_nil] at hc
      exact ⟨(hm2 c hc) ▸ hcs, le_of_eq (hm2 c hc)⟩
    · intro _ c hc
      rw [List.append_nil] at hc
      exact hm2 c hc

/-- Witness for C9 at a concrete input: chunk size 2 over fragments
[1,2,3] ++ [4] gives back all bytes in order. -/
theorem collect_logs_chunking_w :
    (collect_logs 2 [[1, 2, 3], [4]]).flatten = [1, 2, 3, 4] :=
  (collect_logs_chunking 2 [[1, 2, 3], [4]] (by decide)).1

theorem lookupKey_eq_none_of_not_mem {β : Type} (l : List (String × β))
    (key : String) (h : key ∉ l.map Prod.fst) : lookupKey l key = none := by
  induction l with
  | nil => rfl
  | cons kv rest ih =>
      obtain ⟨k, v⟩ := kv
      simp only [List.map_cons, List.mem_cons] at h
      push_neg at h
      rw [lookupKey, if_neg (fun hk => h.1 hk.symm)]
      exact ih h.2

theorem lookupKey_eraseKey_self {β : Type} (l : List (String × β))
    (key : String) (hnd : (l.map Prod.fst).Nodup) :
    lookupKey (eraseKey l key) key = none := by
  induction l with
  | nil => rfl
  | cons kv rest ih =>
      obtain ⟨k, v⟩ := kv
      simp only [List.map_cons, List.nodup_cons] at hnd
      by_cases hk : k = key
      · subst hk
        rw [eraseKey, if_pos rfl]
        exact lookupKey_eq_none_of_not_mem rest k hnd.1
      · rw [eraseKey, if_neg hk, lookupKey, if_neg hk]
        exact ih hnd.2

theorem lookupKey_eraseKey_ne {β : Type} (l : List (String × β))
    (key k2 : String) (h : k2 ≠ key) :
    lookupKey (eraseKey l key) k2 = lookupKey l k2 := by
  induction l with
  | nil => rfl
  | cons kv rest ih =>
      obtain ⟨k, v⟩ := kv
      by_cases hk : k = key
      · subst hk
        rw [eraseKey, if_pos rfl, lookupKey, if_neg (fun hkk => h hkk.symm)]
      · rw [eraseKey, if_neg hk, lookupKey, lookupKey]
        by_cases hkk : k = k2
        · rw [if_pos hkk, if_pos hkk]
        · rw [if_neg hkk, if_neg hkk]
          exact ih

theorem lookupKey_updateKey {β : Type} (l : List (String × β)) (key : String)
    (nv : β) :
    lookupKey (updateKey l key nv) key
      = (lookupKey l key).map (fun _ => nv) := by
  induction l with
  | nil => rfl
  | cons kv rest ih =>
      obtain ⟨k, v⟩ := kv
      by_cases hk : k = key
      · rw [updateKey, if_pos hk, lookupKey, if_pos hk, lookupKey, if_pos hk]
        rfl
      · rw [updateKey, if_neg hk, lookupKey, if_neg hk, lookupKey, if_neg hk]
        exact ih

/-- Claim C7: when the CLEAN handler processes a kernel present in the
registry, exactly the kernel's host ports inside the configured inclusive
range [lo, hi] are returned to the port pool, out-of-range host ports are
never returned, and the kernel is removed from the registry (other kernels
keep their registrations). -/
theorem clean_event_port_restoration (lo hi : Nat) (port_pool : List Nat)
    (registry : List (String × KernelObject)) (kernel_id : String)
    (obj : KernelObject)
    (hreg : lookupKey registry kernel_id = some obj)
    (hnd : (registry.map Prod.fst).Nodup) :
    (∀ p, p ∈ (handle_clean_finally (lo, hi) port_pool registry kernel_id).1 ↔
      p ∈ port_pool ∨ (p ∈ obj.host_ports ∧ lo ≤ p ∧ p ≤ hi)) ∧
    lookupKey (handle_clean_finally (lo, hi) port_pool registry kernel_id).2
        kernel_id = none ∧
    (∀ k2, k2 ≠ kernel_id →
      lookupKey (handle_clean_finally (lo, hi) port_pool registry kernel_id).2 k2
        = lookupKey registry k2) := by
  simp only [handle_clean_finally, hreg]
  refine ⟨?_, ?_, ?_⟩
  · intro p
    simp [List.mem_append, List.mem_filter]
  · exact lookupKey_eraseKey_self registry kernel_id hnd
  · intro k2 h2
    exact lookupKey_eraseKey_ne registry kernel_id k2 h2

/-- Witness for C7 at a concrete input: a kernel with host ports 12 (in
range) and 100 (out of range), range (10, 20). -/
theorem clean_event_port_restoration_w :
    (100 ∉ (handle_clean_finally (10, 20) [1]
        [("k1", ⟨"c1", [12, 100], none, false⟩)] "k1").1) ∧
    (12 ∈ (handle_clean_finally (10, 20) [1]
        [("k1", ⟨"c1", [12, 100], none, false⟩)] "k1").1) := by
  have h := clean_event_port_restoration 10 20 [1]
    [("k1", ⟨"c1", [12, 100], none, false⟩)] "k1" ⟨"c1", [12, 100], none, false⟩
    (by decide) (by simp)
  constructor
  · intro hmem
    have := (h.1 100).mp hmem
    simp at this
  · exact (h.1 12).mpr (Or.inr (by simp))

/-- Counterexample to claim C6: two DESTROY events injected back-to-back for
the same registered kernel, both while its termination-reason is still unset
(so the inject-time guard copies nothing), are processed in FIFO order; the
first sets the reason to "user-requested", and the second — a later
lifecycle event — overwrites it with the different value "exec-timeout". -/
theorem termination_reason_overwritten :
    (let obj0 : KernelObject := ⟨"c0", [], none, true⟩
     let s0 : AgentState := ⟨[("k0", obj0)], []⟩
     let s1 := inject_container_lifecycle_event s0 "k0" .DESTROY
       "user-requested" none
     let s2 := inject_container_lifecycle_event s1 "k0" .DESTROY
       "exec-timeout" none
     let e1 : LCEvent := ⟨"k0", some "c0", .DESTROY, "user-requested"⟩
     let e2 : LCEvent := ⟨"k0", some "c0", .DESTROY, "exec-timeout"⟩
     let s3 := handle_destroy_event s2 e1
     let s4 := handle_destroy_event s3 e2
     s2.lifecycle_queue = [e1, e2] ∧
     lookupKey s3.registry "k0" = some ⟨"c0", [], some "user-requested", false⟩ ∧
     lookupKey s4.registry "k0" = some ⟨"c0", [], some "exec-timeout", false⟩) ∧
    "user-requested" ≠ "" ∧ ("exec-timeout" : String) ≠ "user-requested" := by
  decide

/-- Claim C6 as amended: once a registered kernel's termination-reason holds
a non-empty value, any event injected afterwards through
inject_container_lifecycle_event carries exactly that existing reason, so
processing that event as a DESTROY leaves the termination-reason at the same
value; only events that were enqueued before the reason was set can differ
from it. -/
theorem termination_reason_sticky_after_set (s : AgentState)
    (kernel_id : String) (kind : LifecycleKind) (reason r : String)
    (cid : Option String) (obj : KernelObject)
    (hobj : lookupKey s.registry kernel_id = some obj)
    (hr : obj.termination_reason = some r) (hne : r ≠ "") :
    (inject_container_lifecycle_event s kernel_id kind reason cid).lifecycle_queue
      = s.lifecycle_queue ++ [⟨kernel_id, some obj.container_id, kind, r⟩] ∧
    (∀ (s2 : AgentState) (obj2 : KernelObject),
      lookupKey s2.registry kernel_id = some obj2 →
      lookupKey (handle_destroy_event s2
          ⟨kernel_id, some obj.container_id, kind, r⟩).registry kernel_id
        = some { obj2 with stats_enabled := false,
                           termination_reason := some r }) := by
  constructor
  · simp only [inject_container_lifecycle_event, hobj, hr]
    rw [if_neg hne]
  · intro s2 obj2 hobj2
    simp only [handle_destroy_event, hobj2, lookupKey_updateKey, hobj2]
    rfl

/-- Witness for the amended C6 at a concrete input. -/
theorem termination_reason_sticky_after_set_w :
    (inject_container_lifecycle_event
        ⟨[("k0", ⟨"c0", [], some "user-requested", false⟩)], []⟩
        "k0" .DESTROY "exec-timeout" none).lifecycle_queue
      = [⟨"k0", some "c0", .DESTROY, "user-requested"⟩] := by
  have h := termination_reason_sticky_after_set
    ⟨[("k0", ⟨"c0", [], some "user-requested", false⟩)], []⟩
    "k0" .DESTROY "exec-timeout" "user-requested" none
    ⟨"c0", [], some "user-requested", false⟩
    (by decide) (by rfl) (by decide)
  simpa using h.1

/-- Counterexample to claim C1: allocating cpu then cuda where cuda has no
free slots surfaces InsufficientResource, but the cpu alloc map still holds
the allocation made earlier in the same call (3 free slots instead of the 4
at call entry) — nothing is released before the error reaches the caller. -/
theorem create_kernel_allocate_not_rolled_back :
    ∃ ms : String → Nat,
      create_kernel_allocate demoAllocate [("cpu", 1), ("cuda", 1)] demoComputers
        = .error ("InsufficientResource", ms) ∧
      ms "cpu" = 3 ∧ demoComputers "cpu" = 4 :=
  ⟨updateFn demoComputers "cpu" 3, rfl, rfl, rfl⟩

/-- Claim C1 as amended: when the allocation stage of create_kernel raises
InsufficientResource, the error is surfaced immediately and the per-computer
allocation maps are exactly those produced by the successful allocations of
a prefix of the device list — allocations made earlier in the same call are
NOT released (cleanup only happens later, through rescan_resource_usage when
the kernel is destroyed). -/
theorem create_kernel_allocate_error_preserves_done {M R A E : Type}
    (allocate : String → M → R → Except E (M × A))
    (devs : List (String × R)) (computers : String → M)
    (e : E) (ms : String → M)
    (herr : create_kernel_allocate allocate devs computers = .error (e, ms)) :
    ∃ done dev req rest allocs,
      devs = done ++ (dev, req) :: rest ∧
      create_kernel_allocate allocate done computers = .ok (ms, allocs) ∧
      allocate dev (ms dev) req = .error e := by
  induction devs generalizing computers with
  | nil =>
      exact absurd herr (by simp [create_kernel_allocate])
  | cons hd tl ih =>
      obtain ⟨dev0, req0⟩ := hd
      rw [create_kernel_allocate] at herr
      rcases halloc : allocate dev0 (computers dev0) req0 with e0 | pair
      · simp only [halloc, Except.error.injEq, Prod.mk.injEq] at herr
        obtain ⟨he, hms⟩ := herr
        subst he
        subst hms
        refine ⟨[], dev0, req0, tl, [], by simp, ?_, halloc⟩
        rw [create_kernel_allocate]
      · obtain ⟨m2, alloc⟩ := pair
        simp only [halloc] at herr
        rcases hrec : create_kernel_allocate allocate tl (updateFn computers dev0 m2)
          with p | pair2
        · simp only [hrec, Except.error.injEq] at herr
          subst herr
          obtain ⟨done, dev, req, rest, allocs, hsplit, hok, hfail⟩ := ih _ hrec
          refine ⟨(dev0, req0) :: done, dev, req, rest, (dev0, alloc) :: allocs,
            by simp [hsplit], ?_, hfail⟩
          simp only [create_kernel_allocate, halloc, hok]
        · obtain ⟨ms2, allocs2⟩ := pair2
          simp only [hrec] at herr
          simp at herr

/-- Witness for the amended C1 at the concrete two-device input. -/
theorem create_kernel_allocate_error_preserves_done_w :
    ∃ done dev req rest allocs,
      ([("cpu", 1), ("cuda", 1)] : List (String × Nat)) = done ++ (dev, req) :: rest ∧
      create_kernel_allocate demoAllocate done demoComputers
        = .ok (updateFn demoComputers "cpu" 3, allocs) ∧
      demoAllocate dev (updateFn demoComputers "cpu" 3 dev) req
        = .error "InsufficientResource" :=
  create_kernel_allocate_error_preserves_done demoAllocate
    [("cpu", 1), ("cuda", 1)] demoComputers "InsufficientResource"
    (updateFn demoComputers "cpu" 3) rfl

theorem mem_insertDescBy {α : Type} (keyOf : α → List Nat) (x y : α)
    (l : List α) : y ∈ insertDescBy keyOf x l ↔ y = x ∨ y ∈ l := by
  induction l with
  | nil => simp [insertDescBy]
  | cons z rest ih =>
      rw [insertDescBy]
      by_cases hc : keyOf z ≤ keyOf x
      · rw [if_pos hc]
        simp [List.mem_cons]
      · rw [if_neg hc]
        simp only [List.mem_cons, ih]
        tauto

theorem mem_sortDescBy {α : Type} (keyOf : α → List Nat) (l : List α)
    (y : α) : y ∈ sortDescBy keyOf l ↔ y ∈ l := by
  induction l with
  | nil => simp [sortDescBy]
  | cons z rest ih =>
      rw [sortDescBy, mem_insertDescBy]
      simp [ih]

theorem sorted_insertDescBy {α : Type} (keyOf : α → List Nat) (x : α)
    (l : List α) (hs : List.Sorted (fun a b => keyOf b ≤ keyOf a) l) :
    List.Sorted (fun a b => keyOf b ≤ keyOf a) (insertDescBy keyOf x l) := by
  induction l with
  | nil => simp [insertDescBy]
  | cons z rest ih =>
      rw [insertDescBy]
      rcases List.sorted_cons.mp hs with ⟨hz, hrest⟩
      by_cases hc : keyOf z ≤ keyOf x
      · rw [if_pos hc]
        apply List.sorted_cons.mpr
        refine ⟨?_, hs⟩
        intro b hb
        rcases List.mem_cons.mp hb with rfl | hb2
        · exact hc
        · exact le_trans (hz b hb2) hc
      · rw [if_neg hc]
        apply List.sorted_cons.mpr
        refine ⟨?_, ih hrest⟩
        intro b hb
        rcases (mem_insertDescBy keyOf x b rest).mp hb with rfl | hb2
        · exact le_of_not_le hc
        · exact hz b hb2

theorem sorted_sortDescBy {α : Type} (keyOf : α → List Nat) (l : List α) :
    List.Sorted (fun a b => keyOf b ≤ keyOf a) (sortDescBy keyOf l) := by
  induction l with
  | nil => simp [sortDescBy]
  | cons z rest ih =>
      rw [sortDescBy]
      exact sorted_insertDescBy keyOf z (sortDescBy keyOf rest) ih

/-- Counterexample to claim C4: with mapping containing only ubuntu16.04 and
requested distro ubuntu18.04, the entry ubuntu16.04 starts with the prefix
"ubuntu" and carries the highest version that is ≤ the requested 18.04, yet
match_krunner_volume raises RuntimeError (not found) instead of returning it:
with a version suffix present the source only accepts an exact key match. -/
theorem match_krunner_exact_only :
    match_krunner_volume [("ubuntu16.04".data, 0)] "ubuntu18.04".data
        = .error KrunnerErr.notFound ∧
    "ubuntu".data.isPrefixOf "ubuntu16.04".data = true ∧
    verSuffix "ubuntu18.04".data = some "18.04".data ∧
    distroStem "ubuntu18.04".data = "ubuntu".data ∧
    verKeyOf "ubuntu16.04".data ≤ verKeyOf "ubuntu18.04".data ∧
    (Except.error KrunnerErr.notFound : Except KrunnerErr (List Char × Nat))
      ≠ .ok ("ubuntu16.04".data, 0) := by
  refine ⟨by rfl, by decide, by decide, by decide, by decide, ?_⟩
  intro h
  exact Except.noConfusion h

/-- Claim C4 as amended: provided every prefix-filtered key carries a version
suffix (else the source raises AttributeError), match_krunner_volume behaves
as follows.  When the requested distro string has no version suffix and some
entry matches the prefix, it returns a prefix-matching entry of maximal
version.  When the distro string has a version suffix, it returns the entry
whose key EXACTLY equals the distro string if one exists, and raises
RuntimeError otherwise — it does not fall back to the highest version ≤ the
requested one. -/
theorem match_krunner_volume_semantics {α : Type}
    (vols : List (List Char × α)) (distro : List Char)
    (hall : ∀ kv ∈ krunnerFiltered vols distro, (verSuffix kv.1).isSome) :
    (verSuffix distro = none → krunnerFiltered vols distro ≠ [] →
      ∃ kv, match_krunner_volume vols distro = .ok kv ∧
        kv ∈ krunnerFiltered vols distro ∧
        ∀ kv2 ∈ krunnerFiltered vols distro,
          verKeyOf kv2.1 ≤ verKeyOf kv.1) ∧
    (∀ w, verSuffix distro = some w →
      ((∃ val, (distro, val) ∈ vols) →
        ∃ val, match_krunner_volume vols distro = .ok (distro, val) ∧
          (distro, val) ∈ vols) ∧
      ((∀ val, (distro, val) ∉ vols) →
        match_krunner_volume vols distro = .error KrunnerErr.notFound)) := by
  have hcore : match_krunner_volume vols distro = match_krunner_core vols distro := by
    unfold match_krunner_volume
    exact if_pos hall
  constructor
  · intro hnone hne
    rcases hs : sortDescBy (fun kv => verKeyOf kv.1) (krunnerFiltered vols distro)
      with _ | ⟨top, rest⟩
    · exfalso
      obtain ⟨x, hx⟩ := List.exists_mem_of_ne_nil _ hne
      have := (mem_sortDescBy (fun kv => verKeyOf kv.1)
        (krunnerFiltered vols distro) x).mpr hx
      rw [hs] at this
      simp at this
    · refine ⟨top, ?_, ?_, ?_⟩
      · rw [hcore]
        unfold match_krunner_core
        rw [hs, hnone]
      · have : top ∈ sortDescBy (fun kv => verKeyOf kv.1)
            (krunnerFiltered vols distro) := by
          rw [hs]
          exact List.mem_cons_self top rest
        exact (mem_sortDescBy _ _ top).mp this
      · intro kv2 hkv2
        have hmem : kv2 ∈ sortDescBy (fun kv => verKeyOf kv.1)
            (krunnerFiltered vols distro) :=
          (mem_sortDescBy _ _ kv2).mpr hkv2
        rw [hs] at hmem
        rcases List.mem_cons.mp hmem with rfl | hmem2
        · exact le_refl _
        · have hsorted := sorted_sortDescBy (fun kv => verKeyOf kv.1)
            (krunnerFiltered vols distro)
          rw [hs] at hsorted
          exact List.rel_of_sorted_cons hsorted kv2 hmem2
  · intro w hw
    constructor
    · rintro ⟨val, hval⟩
      have hpre : (distroStem distro).isPrefixOf distro = true := by
        unfold distroStem
        rw [hw]
        exact List.isPrefixOf_iff_prefix.mpr (List.take_prefix _ _)
      have hfilt : (distro, val) ∈ krunnerFiltered vols distro := by
        unfold krunnerFiltered
        rw [List.mem_filter]
        exact ⟨hval, hpre⟩
      have hmem : (distro, val) ∈ sortDescBy (fun kv => verKeyOf kv.1)
          (krunnerFiltered vols distro) :=
        (mem_sortDescBy _ _ _).mpr hfilt
      have hfind : ((sortDescBy (fun kv => verKeyOf kv.1)
          (krunnerFiltered vols distro)).find?
          (fun kv => decide (kv.1 = distro))).isSome := by
        rw [List.find?_isSome]
        exact ⟨(distro, val), hmem, by simp⟩
      rcases hfound : (sortDescBy (fun kv => verKeyOf kv.1)
          (krunnerFiltered vols distro)).find?
          (fun kv => decide (kv.1 = distro)) with _ | kv
      · rw [hfound] at hfind
        simp at hfind
      · have hk1 : kv.1 = distro := by
          have := List.find?_some hfound
          simpa using this
        have hkvmem : kv ∈ sortDescBy (fun kv => verKeyOf kv.1)
            (krunnerFiltered vols distro) := List.mem_of_find?_eq_some hfound
        have hkvvols : kv ∈ vols := by
          have := (mem_sortDescBy _ _ kv).mp hkvmem
          unfold krunnerFiltered at this
          exact (List.mem_filter.mp this).1
        refine ⟨kv.2, ?_, ?_⟩
        · rw [hcore]
          unfold match_krunner_core
          rcases hs : sortDescBy (fun kv => verKeyOf kv.1)
              (krunnerFiltered vols distro) with _ | ⟨top, rest⟩
          · rw [hs] at hmem
            simp at hmem
          · rw [hs] at hfound
            simp only [hs, hw, hfound]
            rw [← hk1]
        · rw [← hk1]
          exact hkvvols
    · intro hnone2
      have hfind : (sortDescBy (fun kv => verKeyOf kv.1)
          (krunnerFiltered vols distro)).find?
          (fun kv => decide (kv.1 = distro)) = none := by
        rcases hfound : (sortDescBy (fun kv => verKeyOf kv.1)
            (krunnerFiltered vols distro)).find?
            (fun kv => decide (kv.1 = distro)) with _ | kv
        · exact hfound
        · exfalso
          have hk1 : kv.1 = distro := by
            have := List.find?_some hfound
            simpa using this
          have hkvmem := List.mem_of_find?_eq_some hfound
          have hkvvols : kv ∈ vols := by
            have := (mem_sortDescBy _ _ kv).mp hkvmem
            unfold krunnerFiltered at this
            exact (List.mem_filter.mp this).1
          have : (distro, kv.2) ∈ vols := by
            rw [← hk1]
            exact hkvvols
          exact hnone2 kv.2 this
      rw [hcore]
      unfold match_krunner_core
      rcases hs : sortDescBy (fun kv => verKeyOf kv.1)
          (krunnerFiltered vols distro) with _ | ⟨top, rest⟩
      · simp only [hs]
      · rw [hs] at hfind
        simp only [hs, hw, hfind]

/-- Witness for the amended C4: with keys ubuntu18.04 and ubuntu16.04, the
versionless request "ubuntu" yields a maximal-version prefix match. -/
theorem match_krunner_volume_semantics_w :
    ∃ kv, match_krunner_volume
        [("ubuntu18.04".data, 1), ("ubuntu16.04".data, 2)] "ubuntu".data
        = .ok kv ∧
      kv ∈ krunnerFiltered
        [("ubuntu18.04".data, 1), ("ubuntu16.04".data, 2)] "ubuntu".data ∧
      ∀ kv2 ∈ krunnerFiltered
          [("ubuntu18.04".data, 1), ("ubuntu16.04".data, 2)] "ubuntu".data,
        verKeyOf kv2.1 ≤ verKeyOf kv.1 :=
  (match_krunner_volume_semantics
    [("ubuntu18.04".data, 1), ("ubuntu16.04".data, 2)] "ubuntu".data
    (by decide)).1 (by decide) (by decide)

theorem resume_spec (s : RunnerQState) (rid : String) (s3 : RunnerQState)
    (hcur : s.current_run_id = some rid)
    (h : resume_output_queue s = some s3) :
    ∃ q, lookupKey s.pending rid = some q ∧
      s3.pending = (rid, q) :: eraseKey s.pending rid ∧
      s3.output_owner = s.output_owner ∧
      s3.current_run_id = some rid := by
  simp only [resume_output_queue, hcur] at h
  rcases hq : lookupKey s.pending rid with _ | q
  · simp only [hq] at h
    exact absurd h (by simp)
  · simp only [hq, Option.some.injEq] at h
    subst h
    exact ⟨q, rfl, rfl, rfl, rfl⟩

theorem next_spec (s : RunnerQState) (rid : String) (s3 : RunnerQState)
    (hcur : s.current_run_id = some rid)
    (h : next_output_queue s = some s3) :
    s3.current_run_id = none ∧
    (match eraseKey s.pending rid with
     | [] => s3.output_owner = none ∧ s3.pending = []
     | (rid2, _) :: rest => s3.output_owner = some rid2 ∧
        s3.pending = rest ∧ rid2 ∈ s3.activated) := by
  simp only [next_output_queue, hcur] at h
  rcases he : eraseKey s.pending rid with _ | ⟨⟨rid2, q2⟩, rest⟩
  · simp only [he, Option.some.injEq] at h
    subst h
    refine ⟨rfl, ?_⟩
    simp
  · simp only [he, Option.some.injEq] at h
    subst h
    refine ⟨rfl, ?_⟩
    simp

/-- Claim C5: get_next_result ends in exactly one of two queue transitions.
With status continued / waiting-input / build-finished / clean-finished, the
current run's queue entry is moved to the head of the pending order and the
active output queue and current run id are unchanged (the same run
continues).  With status finished / exec-timeout, the current run's entry is
removed from the pending queues and the earliest remaining pending queue, if
any, becomes the active output queue with its waiter's activation event set
(with none remaining, the active queue becomes unset). -/
theorem get_next_result_queue_transitions (s : RunnerQState) (cont : Bool)
    (rid : String) (stat : String) (recs : List ResultRecord)
    (s2 : RunnerQState)
    (hcur : s.current_run_id = some rid)
    (hok : get_next_result s cont = .ok (stat, recs, s2)) :
    (stat ∈ ["continued", "waiting-input", "build-finished", "clean-finished"] →
      ∃ q, lookupKey s.pending rid = some q ∧
        s2.pending = (rid, q) :: eraseKey s.pending rid ∧
        s2.output_owner = s.output_owner ∧
        s2.current_run_id = some rid) ∧
    (stat ∈ ["finished", "exec-timeout"] →
      s2.current_run_id = none ∧
      (match eraseKey s.pending rid with
       | [] => s2.output_owner = none ∧ s2.pending = []
       | (rid2, _) :: rest => s2.output_owner = some rid2 ∧
          s2.pending = rest ∧ rid2 ∈ s2.activated)) := by
  unfold get_next_result at hok
  rcases howner : s.output_owner with _ | owner
  · rw [howner] at hok
    exact absurd hok (by simp)
  · rw [howner] at hok
    simp only [] at hok
    rcases hdrain : (drainLoop s.output_items []).2.1 with _ | _ | _ | _ | _ | _ <;>
      rw [hdrain] at hok
    case finishedRun =>
      rcases hnext : next_output_queue ⟨s.pending, s.activated, s.output_owner,
          (drainLoop s.output_items []).2.2, s.current_run_id⟩ with _ | s3
      · rw [howner] at hnext
        rw [hnext] at hok
        exact absurd hok (by simp)
      · rw [howner] at hnext
        rw [hnext] at hok
        simp only [Except.ok.injEq, Prod.mk.injEq] at hok
        obtain ⟨hstat, _, hs2⟩ := hok
        subst hs2
        constructor
        · intro hmem
          rw [← hstat] at hmem
          simp at hmem
        · intro _
          exact next_spec ⟨s.pending, s.activated, some owner,
            (drainLoop s.output_items []).2.2, s.current_run_id⟩ rid s3 hcur hnext
    case execTimeout =>
      rcases hnext : next_output_queue ⟨s.pending, s.activated, s.output_owner,
          (drainLoop s.output_items []).2.2, s.current_run_id⟩ with _ | s3
      · rw [howner] at hnext
        rw [hnext] at hok
        exact absurd hok (by simp)
      · rw [howner] at hnext
        rw [hnext] at hok
        simp only [Except.ok.injEq, Prod.mk.injEq] at hok
        obtain ⟨hstat, _, hs2⟩ := hok
        subst hs2
        constructor
        · intro hmem
          rw [← hstat] at hmem
          simp at hmem
        · intro _
          exact next_spec ⟨s.pending, s.activated, some owner,
            (drainLoop s.output_items []).2.2, s.current_run_id⟩ rid s3 hcur hnext
    case cleanFin =>
      rcases hres : resume_output_queue ⟨s.pending, s.activated, s.output_owner,
          (drainLoop s.output_items []).2.2, s.current_run_id⟩ with _ | s3
      · rw [howner] at hres
        rw [hres] at hok
        exact absurd hok (by simp)
      · rw [howner] at hres
        rw [hres] at hok
        simp only [Except.ok.injEq, Prod.mk.injEq] at hok
        obtain ⟨hstat, _, hs2⟩ := hok
        subst hs2
        constructor
        · intro _
          exact resume_spec ⟨s.pending, s.activated, some owner,
            (drainLoop s.output_items []).2.2, s.current_run_id⟩ rid s3 hcur hres
        · intro hmem
          rw [← hstat] at hmem
          simp at hmem
    case buildFin =>
      rcases hres : resume_output_queue ⟨s.pending, s.activated, s.output_owner,
          (drainLoop s.output_items []).2.2, s.current_run_id⟩ with _ | s3
      · rw [howner] at hres
        rw [hres] at hok
        exact absurd hok (by simp)
      · rw [howner] at hres
        rw [hres] at hok
        simp only [Except.ok.injEq, Prod.mk.injEq] at hok
        obtain ⟨hstat, _, hs2⟩ := hok
        subst hs2
        constructor
        · intro _
          exact resume_spec ⟨s.pending, s.activated, some owner,
            (drainLoop s.output_items []).2.2, s.current_run_id⟩ rid s3 hcur hres
        · intro hmem
          rw [← hstat] at hmem
          simp at hmem
    case waitingInput =>
      rcases hres : resume_output_queue ⟨s.pending, s.activated, s.output_owner,
          (drainLoop s.output_items []).2.2, s.current_run_id⟩ with _ | s3
      · rw [howner] at hres
        rw [hres] at hok
        exact absurd hok (by simp)
      · rw [howner] at hres
        rw [hres] at hok
        simp only [Except.ok.injEq, Prod.mk.injEq] at hok
        obtain ⟨hstat, _, hs2⟩ := hok
        subst hs2
        constructor
        · intro _
          exact resume_spec ⟨s.pending, s.activated, some owner,
            (drainLoop s.output_items []).2.2, s.current_run_id⟩ rid s3 hcur hres
        · intro hmem
          rw [← hstat] at hmem
          simp at hmem
    case exhausted =>
      rcases cont with _ | _
      · exact absurd hok (by simp)
      · rw [if_pos rfl] at hok
        rcases hres : resume_output_queue ⟨s.pending, s.activated, s.output_owner,
            (drainLoop s.output_items []).2.2, s.current_run_id⟩ with _ | s3
        · rw [howner] at hres
          rw [hres] at hok
          exact absurd hok (by simp)
        · rw [howner] at hres
          rw [hres] at hok
          simp only [Except.ok.injEq, Prod.mk.injEq] at hok
          obtain ⟨hstat, hrecs, hs2⟩ := hok
          subst hs2
          constructor
          · intro _
            exact resume_spec ⟨s.pending, s.activated, some owner,
              (drainLoop s.output_items []).2.2, s.current_run_id⟩ rid s3 hcur hres
          · intro hmem
            rw [← hstat] at hmem
            simp at hmem

/-- Witness for C5 at a concrete input: run A active with a finished record
queued, run B pending; get_next_result returns finished, B's queue becomes
active and B's activation event is set. -/
theorem get_next_result_queue_transitions_w :
    get_next_result ⟨[("A", []), ("B", [])], [], some "A",
        [⟨"finished", some "0"⟩], some "A"⟩ true
      = .ok ("finished", [], ⟨[], ["B"], some "B", [], none⟩) ∧
    "B" ∈ (⟨[], ["B"], some "B", [], none⟩ : RunnerQState).activated := by
  have h := get_next_result_queue_transitions
    ⟨[("A", []), ("B", [])], [], some "A", [⟨"finished", some "0"⟩], some "A"⟩
    true "A" "finished" [] ⟨[], ["B"], some "B", [], none⟩ rfl rfl
  have h2 := h.2 (by decide)
  exact ⟨rfl, h2.2.2.2⟩

theorem str_append_ne_empty (s t : String) (h : s ≠ "") : s ++ t ≠ "" := by
  intro h2
  apply h
  cases s with | mk ds =>
  cases t with | mk dt =>
  have h3 : ds ++ dt = [] := by
    have := congrArg String.data h2
    simpa using this
  rcases List.append_eq_nil.mp h3 with ⟨h4, _⟩
  simp [h4]

theorem joinStr_concat (a : List String) (s : String) :
    joinStr (a ++ [s]) = joinStr a ++ s := by
  induction a with
  | nil => simp [joinStr]
  | cons x xs ih => simp [joinStr, ih, String.append_assoc]

/-- coalesceRuns only looks at a record's payload through `getD ""`. -/
theorem coalesce_head_congr (pm : String → String × String) (t : String)
    (dopt : Option String) (rest : List ResultRecord) :
    coalesceRuns pm (⟨t, dopt⟩ :: rest)
      = coalesceRuns pm (⟨t, some (dopt.getD "")⟩ :: rest) := by
  simp only [coalesceRuns]
  simp

/-- A pending stdout text followed by another stdout record coalesces with
it. -/
theorem coalesce_stdout_absorb (pm : String → String × String) (so : String)
    (rd : Option String) (rest : List ResultRecord) :
    coalesceRuns pm (⟨"stdout", some so⟩ :: ⟨"stdout", rd⟩ :: rest)
      = coalesceRuns pm (⟨"stdout", some (so ++ rd.getD "")⟩ :: rest) := by
  simp only [coalesceRuns]
  simp [List.takeWhile_cons, List.dropWhile_cons, concatData, String.append_assoc]

theorem coalesce_stderr_absorb (pm : String → String × String) (se : String)
    (rd : Option String) (rest : List ResultRecord) :
    coalesceRuns pm (⟨"stderr", some se⟩ :: ⟨"stderr", rd⟩ :: rest)
      = coalesceRuns pm (⟨"stderr", some (se ++ rd.getD "")⟩ :: rest) := by
  simp only [coalesceRuns]
  simp [List.takeWhile_cons, List.dropWhile_cons, concatData, String.append_assoc]

/-- A pending stdout text followed by a non-stdout record (or nothing) is a
maximal run: it is emitted when non-empty. -/
theorem coalesce_stdout_stop (pm : String → String × String) (so : String)
    (r : ResultRecord) (rest : List ResultRecord)
    (hr : r.msg_type ≠ "stdout") :
    coalesceRuns pm (⟨"stdout", some so⟩ :: r :: rest)
      = (if so ≠ "" then [("stdout", ConsoleData.text so)] else [])
        ++ coalesceRuns pm (r :: rest) := by
  conv_lhs => rw [coalesceRuns]
  simp [List.takeWhile_cons, List.dropWhile_cons, hr, concatData]

theorem coalesce_stderr_stop (pm : String → String × String) (se : String)
    (r : ResultRecord) (rest : List ResultRecord)
    (hr : r.msg_type ≠ "stderr") :
    coalesceRuns pm (⟨"stderr", some se⟩ :: r :: rest)
      = (if se ≠ "" then [("stderr", ConsoleData.text se)] else [])
        ++ coalesceRuns pm (r :: rest) := by
  conv_lhs => rw [coalesceRuns]
  simp [List.takeWhile_cons, List.dropWhile_cons, hr, concatData]

theorem coalesce_stdout_single (pm : String → String × String) (so : String) :
    coalesceRuns pm [⟨"stdout", some so⟩]
      = (if so ≠ "" then [("stdout", ConsoleData.text so)] else []) := by
  simp only [coalesceRuns]
  simp [concatData, coalesceRuns]

theorem coalesce_stderr_single (pm : String → String × String) (se : String) :
    coalesceRuns pm [⟨"stderr", some se⟩]
      = (if se ≠ "" then [("stderr", ConsoleData.text se)] else []) := by
  simp only [coalesceRuns]
  simp [concatData, coalesceRuns]

/-- A stdout record with empty payload contributes nothing: it merges into
an adjacent run or disappears. -/
theorem coalesce_stdout_empty (pm : String → String × String)
    (rest : List ResultRecord) :
    coalesceRuns pm (⟨"stdout", some ""⟩ :: rest) = coalesceRuns pm rest := by
  rcases rest with _ | ⟨⟨rt, rd⟩, rest2⟩
  · rw [coalesce_stdout_single]
    simp [coalesceRuns]
  · by_cases h1 : rt = "stdout"
    · subst h1
      rw [coalesce_stdout_absorb]
      have : ("" : String) ++ rd.getD "" = rd.getD "" := String.empty_append _
      rw [this, ← coalesce_head_congr]
    · rw [coalesce_stdout_stop pm "" ⟨rt, rd⟩ rest2 h1]
      simp

theorem coalesce_stderr_empty (pm : String → String × String)
    (rest : List ResultRecord) :
    coalesceRuns pm (⟨"stderr", some ""⟩ :: rest) = coalesceRuns pm rest := by
  rcases rest with _ | ⟨⟨rt, rd⟩, rest2⟩
  · rw [coalesce_stderr_single]
    simp [coalesceRuns]
  · by_cases h1 : rt = "stderr"
    · subst h1
      rw [coalesce_stderr_absorb]
      have : ("" : String) ++ rd.getD "" = rd.getD "" := String.empty_append _
      rw [this, ← coalesce_head_congr]
    · rw [coalesce_stderr_stop pm "" ⟨rt, rd⟩ rest2 h1]
      simp

/-- A non-empty stdout buffer is flushed ahead of a non-stdout record. -/
theorem aggRun_flush_out (pm : String → String × String) (so : String)
    (r : ResultRecord) (rest : List ResultRecord)
    (hso : so ≠ "") (hr : r.msg_type ≠ "stdout") :
    aggRun pm so "" (r :: rest)
      = ("stdout", ConsoleData.text so) :: aggRun pm "" "" (r :: rest) := by
  conv_lhs => rw [aggRun]
  conv_rhs => rw [aggRun]
  simp [hso, hr]

theorem aggRun_flush_err (pm : String → String × String) (se : String)
    (r : ResultRecord) (rest : List ResultRecord)
    (hse : se ≠ "") (hr : r.msg_type ≠ "stderr") :
    aggRun pm "" se (r :: rest)
      = ("stderr", ConsoleData.text se) :: aggRun pm "" "" (r :: rest) := by
  conv_lhs => rw [aggRun]
  conv_rhs => rw [aggRun]
  simp [hse, hr]

/-- The v2/v3 loop of aggregate_console computes exactly the coalesced run
list, also with a pending non-empty stdout or stderr buffer (which behaves
as one more leading record of that type). -/
theorem aggRun_coalesce (pm : String → String × String) :
    ∀ (n : Nat) (records : List ResultRecord), records.length ≤ n →
      (aggRun pm "" "" records = coalesceRuns pm records) ∧
      (∀ so, so ≠ "" → aggRun pm so "" records
        = coalesceRuns pm (⟨"stdout", some so⟩ :: records)) ∧
      (∀ se, se ≠ "" → aggRun pm "" se records
        = coalesceRuns pm (⟨"stderr", some se⟩ :: records)) := by
  intro n
  induction n with
  | zero =>
      intro records hlen
      have hnil : records = [] := List.eq_nil_of_length_eq_zero (Nat.le_zero.mp hlen)
      subst hnil
      refine ⟨by simp [aggRun, coalesceRuns], ?_, ?_⟩
      · intro so hso
        rw [coalesce_stdout_single]
        simp [aggRun, hso]
      · intro se hse
        rw [coalesce_stderr_single]
        simp [aggRun, hse]
  | succ n ih =>
      intro records hlen
      have hA : aggRun pm "" "" records = coalesceRuns pm records := by
        rcases records with _ | ⟨⟨rt, rd⟩, rest⟩
        · simp [aggRun, coalesceRuns]
        · have hrest : rest.length ≤ n := by
            simp only [List.length_cons] at hlen
            omega
          by_cases h1 : rt = "stdout"
          · subst h1
            have hstep : aggRun pm "" "" (⟨"stdout", rd⟩ :: rest)
                = aggRun pm (rd.getD "") "" rest := by
              conv_lhs => rw [aggRun]
              simp
            rw [hstep, coalesce_head_congr]
            by_cases hd : rd.getD "" = ""
            · rw [hd, coalesce_stdout_empty, ← (ih rest hrest).1]
            · rw [(ih rest hrest).2.1 _ hd]
          · by_cases h2 : rt = "stderr"
            · subst h2
              have hstep : aggRun pm "" "" (⟨"stderr", rd⟩ :: rest)
                  = aggRun pm "" (rd.getD "") rest := by
                conv_lhs => rw [aggRun]
                simp
              rw [hstep, coalesce_head_congr]
              by_cases hd : rd.getD "" = ""
              · rw [hd, coalesce_stderr_empty, ← (ih rest hrest).1]
              · rw [(ih rest hrest).2.2 _ hd]
            · by_cases h3 : rt = "media"
              · subst h3
                have hstep : aggRun pm "" "" (⟨"media", rd⟩ :: rest)
                    = ("media", ConsoleData.pair (pm (rd.getD "")))
                      :: aggRun pm "" "" rest := by
                  conv_lhs => rw [aggRun]
                  simp
                rw [hstep, (ih rest hrest).1]
                conv_rhs => rw [coalesceRuns]
                simp
              · by_cases h4 : rt ∈ outgoing_msg_types
                · have hstep : aggRun pm "" "" (⟨rt, rd⟩ :: rest)
                      = (rt, ConsoleData.text (rd.getD ""))
                        :: aggRun pm "" "" rest := by
                    conv_lhs => rw [aggRun]
                    simp [h1, h2, h3, h4]
                  rw [hstep, (ih rest hrest).1]
                  conv_rhs => rw [coalesceRuns]
                  simp [h1, h2, h3, h4]
                · have hstep : aggRun pm "" "" (⟨rt, rd⟩ :: rest)
                      = aggRun pm "" "" rest := by
                    conv_lhs => rw [aggRun]
                    simp [h1, h2, h3, h4]
                  rw [hstep, (ih rest hrest).1]
                  conv_rhs => rw [coalesceRuns]
                  simp [h1, h2, h3, h4]
      refine ⟨hA, ?_, ?_⟩
      · intro so hso
        rcases records with _ | ⟨⟨rt, rd⟩, rest⟩
        · rw [coalesce_stdout_single]
          simp [aggRun, hso]
        · have hrest : rest.length ≤ n := by
            simp only [List.length_cons] at hlen
            omega
          by_cases h1 : rt = "stdout"
          · subst h1
            have hstep : aggRun pm so "" (⟨"stdout", rd⟩ :: rest)
                = aggRun pm (so ++ rd.getD "") "" rest := by
              conv_lhs => rw [aggRun]
              simp
            have hne2 : so ++ rd.getD "" ≠ "" := str_append_ne_empty _ _ hso
            rw [hstep, (ih rest hrest).2.1 _ hne2, coalesce_stdout_absorb]
          · rw [aggRun_flush_out pm so ⟨rt, rd⟩ rest hso h1, hA,
              coalesce_stdout_stop pm so ⟨rt, rd⟩ rest h1]
            simp [hso]
      · intro se hse
        rcases records with _ | ⟨⟨rt, rd⟩, rest⟩
        · rw [coalesce_stderr_single]
          simp [aggRun, hse]
        · have hrest : rest.length ≤ n := by
            simp only [List.length_cons] at hlen
            omega
          by_cases h2 : rt = "stderr"
          · subst h2
            have hstep : aggRun pm "" se (⟨"stderr", rd⟩ :: rest)
                = aggRun pm "" (se ++ rd.getD "") rest := by
              conv_lhs => rw [aggRun]
              simp
            have hne2 : se ++ rd.getD "" ≠ "" := str_append_ne_empty _ _ hse
            rw [hstep, (ih rest hrest).2.2 _ hne2, coalesce_stderr_absorb]
          · rw [aggRun_flush_err pm se ⟨rt, rd⟩ rest hse h2, hA,
              coalesce_stderr_stop pm se ⟨rt, rd⟩ rest h2]
            simp [hse]

theorem aggV1Loop_spec (pm : String → String × String) :
    ∀ (records : List ResultRecord) (A B : List String)
      (C : List (String × String)) (D : List String),
      aggV1Loop pm A B C D records = ⟨
        joinStr A ++ joinStr (records.filterMap
          (fun r => if r.msg_type = "stdout" then some (r.data.getD "") else none)),
        joinStr B ++ joinStr (records.filterMap
          (fun r => if r.msg_type = "stderr" then some (r.data.getD "") else none)),
        C ++ records.filterMap
          (fun r => if r.msg_type = "media" then some (pm (r.data.getD "")) else none),
        D ++ records.filterMap
          (fun r => if r.msg_type = "html" then some (r.data.getD "") else none)⟩ := by
  intro records
  induction records with
  | nil =>
      intro A B C D
      simp [aggV1Loop, joinStr]
  | cons r rest ih =>
      intro A B C D
      obtain ⟨rt, rd⟩ := r
      by_cases h1 : rt = "stdout"
      · subst h1
        conv_lhs => rw [aggV1Loop]
        rw [if_pos rfl, ih]
        simp [List.filterMap_cons, joinStr_concat, joinStr, String.append_assoc]
      · by_cases h2 : rt = "stderr"
        · subst h2
          conv_lhs => rw [aggV1Loop]
          rw [if_neg h1, if_pos rfl, ih]
          simp [List.filterMap_cons, joinStr_concat, joinStr, String.append_assoc]
        · by_cases h3 : rt = "media"
          · subst h3
            conv_lhs => rw [aggV1Loop]
            rw [if_neg h1, if_neg h2, if_pos rfl, ih]
            simp [List.filterMap_cons, List.append_assoc]
          · by_cases h4 : rt = "html"
            · subst h4
              conv_lhs => rw [aggV1Loop]
              rw [if_neg h1, if_neg h2, if_neg h3, if_pos rfl, ih]
              simp [List.filterMap_cons, List.append_assoc]
            · conv_lhs => rw [aggV1Loop]
              rw [if_neg h1, if_neg h2, if_neg h3, if_neg h4, ih]
              simp [List.filterMap_cons, h1, h2, h3, h4]

/-- Counterexample to claim C8: for api version 2, a lone stdout record with
empty payload forms a maximal run of consecutive stdout records, so the claim
predicts the console entry ("stdout", "") — but the source's StringIO buffer
never becomes non-empty and nothing is emitted.  Likewise a record of a
non-client-visible type yields no entry. -/
theorem aggregate_console_drops_empty_run :
    aggregate_console (fun s => (s, s)) 2 [⟨"stdout", some ""⟩]
      = some (.console []) ∧
    aggregate_console (fun s => (s, s)) 2 [⟨"finished", some "0"⟩]
      = some (.console []) ∧
    ([] : List (String × ConsoleData)) ≠ [("stdout", ConsoleData.text "")] := by
  refine ⟨rfl, rfl, by simp⟩

/-- Claim C8 as amended: for every record list whose payloads are strings
(Python would raise on a None payload), aggregate_console with api_ver=1
sets stdout/stderr to the concatenation of all stdout and stderr record
payloads and collects the parsed media pairs and the html payloads into
separate lists; with api_ver 2 or 3 it sets the console to the ordered
(kind, payload) list in record order in which every maximal run of
consecutive stdout records (and, independently, of consecutive stderr
records) is coalesced into one concatenated entry — except that a run whose
concatenated payload is empty yields no entry, and records of types not
visible to the client yield no entry (see coalesceRuns). -/
theorem aggregate_console_semantics (pm : String → String × String)
    (records : List ResultRecord)
    (hdata : ∀ r ∈ records, r.data.isSome) :
    aggregate_console pm 1 records = some (.v1 ⟨
      joinStr (records.filterMap
        (fun r => if r.msg_type = "stdout" then some (r.data.getD "") else none)),
      joinStr (records.filterMap
        (fun r => if r.msg_type = "stderr" then some (r.data.getD "") else none)),
      records.filterMap
        (fun r => if r.msg_type = "media" then some (pm (r.data.getD "")) else none),
      records.filterMap
        (fun r => if r.msg_type = "html" then some (r.data.getD "") else none)⟩) ∧
    aggregate_console pm 2 records = some (.console (coalesceRuns pm records)) ∧
    aggregate_console pm 3 records = some (.console (coalesceRuns pm records)) := by
  refine ⟨?_, ?_, ?_⟩
  · show aggregate_console pm 1 records = _
    unfold aggregate_console
    rw [if_pos rfl, aggV1Loop_spec]
    simp [joinStr]
  · unfold aggregate_console
    rw [if_neg (by omega), if_pos (Or.inl rfl),
      (aggRun_coalesce pm records.length records le_rfl).1]
  · unfold aggregate_console
    rw [if_neg (by omega), if_pos (Or.inr rfl),
      (aggRun_coalesce pm records.length records le_rfl).1]

/-- Witness for the amended C8 at a concrete input: two consecutive stdout
records and one stderr record. -/
theorem aggregate_console_semantics_w :
    aggregate_console (fun s => (s, s)) 2
        [⟨"stdout", some "a"⟩, ⟨"stdout", some "b"⟩, ⟨"stderr", some "c"⟩]
      = some (.console (coalesceRuns (fun s => (s, s))
          [⟨"stdout", some "a"⟩, ⟨"stdout", some "b"⟩, ⟨"stderr", some "c"⟩])) :=
  (aggregate_console_semantics (fun s => (s, s))
    [⟨"stdout", some "a"⟩, ⟨"stdout", some "b"⟩, ⟨"stderr", some "c"⟩]
    (by simp)).2.1

end SornaAgent
